import Mathlib

/-!  Verification of the leaf compiler front-end and evaluator
     (parser/AST builder, type checker, bridged-primitive table, runner). -/

/-- Types of the leaf language, from `src/parser/type.rs` (`enum Type`). -/
inductive Ty where
  | nothing
  | int
  | float
  | bool
  | generic (g : Nat)
  | list (t : Ty)
  | structT (fid tid : Int)
  | func (params : List Ty) (returns : Ty)
  | custom (ident : List String)
  | knownCustom (fid tid : Nat)

mutual

/-- Structural equality on `Ty`, the embedding of the derived `PartialEq`
    on `Type` in `src/parser/type.rs`. -/
def Ty.beq : Ty → Ty → Bool
  | .nothing, .nothing => true
  | .int, .int => true
  | .float, .float => true
  | .bool, .bool => true
  | .generic a, .generic b => a == b
  | .list a, .list b => a.beq b
  | .structT a b, .structT c d => a == c && b == d
  | .func ps r, .func qs s => Ty.beqList ps qs && r.beq s
  | .custom a, .custom b => a == b
  | .knownCustom a b, .knownCustom c d => a == c && b == d
  | _, _ => false

/-- Pointwise equality of type vectors (derived `PartialEq` on `Vec<Type>`). -/
def Ty.beqList : List Ty → List Ty → Bool
  | [], [] => true
  | a :: as, b :: bs => a.beq b && Ty.beqList as bs
  | _, _ => false

end

theorem Ty.beq_iff_aux : ∀ (n : Nat),
    (∀ a b : Ty, sizeOf a ≤ n → (Ty.beq a b = true ↔ a = b)) ∧
    (∀ as bs : List Ty, sizeOf as ≤ n → (Ty.beqList as bs = true ↔ as = bs)) := by
  intro n
  induction n with
  | zero =>
    constructor
    · intro a b h; exfalso; cases a <;> simp at h
    · intro as bs h; exfalso; cases as <;> simp at h
  | succ n ih =>
    constructor
    · intro a b h
      cases a <;> cases b <;> try (simp [Ty.beq]; done)
      case list.list x y =>
        have hx : sizeOf x ≤ n := by
          simp only [Ty.list.sizeOf_spec] at h; omega
        simp [Ty.beq, ih.1 x y hx]
      case func.func ps r qs s =>
        have hps : sizeOf ps ≤ n := by
          simp only [Ty.func.sizeOf_spec] at h; omega
        have hr : sizeOf r ≤ n := by
          simp only [Ty.func.sizeOf_spec] at h; omega
        simp [Ty.beq, ih.2 ps qs hps, ih.1 r s hr]
    · intro as bs h
      cases as <;> cases bs <;> try (simp [Ty.beqList]; done)
      case cons.cons x xs y ys =>
        have hx : sizeOf x ≤ n := by
          simp only [List.cons.sizeOf_spec] at h; omega
        have hxs : sizeOf xs ≤ n := by
          simp only [List.cons.sizeOf_spec] at h; omega
        simp [Ty.beqList, ih.1 x y hx, ih.2 xs ys hxs]

theorem Ty.beq_iff (a b : Ty) : Ty.beq a b = true ↔ a = b :=
  (Ty.beq_iff_aux (sizeOf a)).1 a b (Nat.le_refl _)

instance : DecidableEq Ty := fun a b => decidable_of_iff _ (Ty.beq_iff a b)

mutual

/-- `Type::decoded` from `src/parser/type.rs`: substitute a generic
    assignment into a type. -/
def Ty.decoded : Ty → List (Nat × Ty) → Ty
  | .generic n, generics => ((generics.lookup n).getD (.generic n))
  | .list t, generics => .list (t.decoded generics)
  | .func params returns, generics =>
      .func (Ty.decodedList params generics) (returns.decoded generics)
  | t, _ => t

/-- `decoded` mapped over the parameter vector of a function type. -/
def Ty.decodedList : List Ty → List (Nat × Ty) → List Ty
  | [], _ => []
  | t :: ts, generics => t.decoded generics :: Ty.decodedList ts generics

end

/-- Compile-time literals (`Inlinable` / `Inlined`). The `f64` payload of a
    float literal is carried as its raw bit pattern; no float arithmetic is
    performed anywhere in the embedded fragment. -/
inductive Inlinable where
  | int (i : Int)
  | float (bits : Nat)
  | bool (b : Bool)
  | nothing
deriving DecidableEq

/-- `From<&Inlinable> for Type` in `src/parser/type.rs`, which agrees with the
    `RawToken::Inlined` arm of `type_check` in
    `src/parser/irbuilder/checker.rs`. -/
def inlinable_type : Inlinable → Ty
  | .int _ => .int
  | .float _ => .float
  | .bool _ => .bool
  | .nothing => .nothing

/-- Classification of an identifier (`IdentifierType`). -/
inductive IdentKind where
  | normal
  | operator
  | typeName
deriving DecidableEq

/-- A qualified identifier: module path, final name, classification. -/
structure Ident where
  path : List String
  name : String
  kind : IdentKind
deriving DecidableEq

/-- An identifier together with its optional `<T,...>` type annotations
    (`Anot<Identifier, _>`); the string-to-`Type` conversion of annotations
    (`try_map_anot`) is treated as already performed. -/
structure AIdent where
  ident : Ident
  anot : Option (List Ty)
deriving DecidableEq

/-- `Identifier::is_operator`. -/
def AIdent.is_operator (a : AIdent) : Bool := a.ident.kind = IdentKind.operator

/-- The keyword/punctuation tokens (`Key`) consumed by the AST builder in
    `src/parser/ast/builder.rs`. -/
inductive Key where
  | parenOpen
  | parenClose
  | listOpen
  | listClose
  | recordOpen
  | recordClose
  | comma
  | dot
  | pipe
  | closureMarker
  | lambdaKey
  | arrow
  | kIf
  | kThen
  | kElse
  | kElif
  | kFirst
  | kAnd
  | kWhere
  | primitiveUnimplemented
deriving DecidableEq

/-- Tokenizer output (`RawToken` in `src/parser/tokenizer/token.rs`), as
    observed by the AST builder. The `Header` payload is never inspected by
    the builder (it only pattern-matches `Header(_)`), so it is collapsed. -/
inductive Tok where
  | ident (a : AIdent)
  | header
  | key (k : Key)
  | inlined (v : Inlinable)
  | newline
  | unimpl
deriving DecidableEq

/-- The parse faults (`ParseFault` in the parser module) reachable from the
    embedded fragment. Source positions (`ParseError` wrappers,
    `fallback_index`) are not modelled; the claims under verification are
    position-independent. -/
inductive Fault where
  | emptyParen
  | unmatched (k : Key)
  | unexpected (t : Tok)
  | gotButExpected (t : Tok) (expected : List String)
  | endedWhileExpecting (expected : List String)
  | unexpectedWantedParameter (t : Tok)
  | invalidClosure
  | invalidClosureT (t : Tok)
  | ifMissingThen
  | ifWantedThen (t : Tok)
  | firstMissingThen
  | firstWantedThen (t : Tok)
  | pipeIntoVoid
  | moduleNotImported (name : String)
  | functionNotFound (name : String) (fid : Nat)
  | functionVariantNotFound (name : String) (params : List Ty) (fid : Nat)
  | bridgedFunctionNotFound (ident : String)
  | listEntryTypeMismatch (got : Ty) (want : Ty) (index : Nat)
deriving DecidableEq

/-- A computation outcome: a result, a reported `ParseFault`, a Rust panic
    (`panic!` / `unreachable!` / `unimplemented!` / out-of-bounds indexing),
    or exhaustion of the fuel that makes the embedding total. -/
inductive Res (α : Type) where
  | ok (a : α)
  | fault (f : Fault)
  | panicked
  | nofuel
deriving DecidableEq

/-! ## Bridged primitive table (`src/ir/bridge.rs`) -/

/-- `NaiveType` from `src/ir/bridge.rs`. -/
inductive NaiveType where
  | known (t : Ty)
  | matching (i : Nat)
  | listedMatching (i : Nat)
  | unlistedMatching (i : Nat)
deriving DecidableEq

/-- `get_funcid` from `src/ir/bridge.rs`. The error payload
    `Identifier::try_from(ident).unwrap()` is carried as the raw name (the
    `Identifier` conversion lives outside `src/`). -/
def get_funcid (ident : String) : Except Fault (Nat × NaiveType) :=
  if ident = "add" then .ok (0, .matching 0)
  else if ident = "sub" then .ok (1, .matching 0)
  else if ident = "mul" then .ok (2, .matching 0)
  else if ident = "div" then .ok (3, .matching 0)
  else if ident = "push_back" then .ok (4, .matching 1)
  else if ident = "push_front" then .ok (5, .matching 1)
  else if ident = "get" then .ok (6, .unlistedMatching 1)
  else if ident = "len" then .ok (7, .known .int)
  else .error (.bridgedFunctionNotFound ident)

/-- `try_rust_builtin` from `src/ir/bridge.rs`; `none` is the panic of the
    out-of-bounds indexing `entries[0]` / `entries[1]`. -/
def try_rust_builtin (entries : List String) :
    Option (Except Fault (Option (Nat × NaiveType))) :=
  match entries with
  | [] => none
  | [e0] => if e0 = "rust" then none else some (.ok none)
  | e0 :: e1 :: _ =>
    if e0 = "rust" then some ((get_funcid e1).map some) else some (.ok none)

/-- Modelled from the spec: the consumer of `NaiveType` (the code computing a
    bridged call's return type from the actual argument types is not under
    `src/`). Spec §4.6: `Known(T)` is a fixed return; `Matching(i)` returns
    the type of argument i; `ListedMatching(i)` returns `List(type-of-arg-i)`;
    `UnlistedMatching(i)` returns the element type of the list-typed
    argument i. -/
def naive_return (nt : NaiveType) (args : List Ty) : Option Ty :=
  match nt with
  | .known t => some t
  | .matching i => args[i]?
  | .listedMatching i => (args[i]?).map .list
  | .unlistedMatching i =>
    match args[i]? with
    | some (.list t) => some t
    | _ => none

/-! ## Generic unification and overload resolution
    (`find_matching_function` in `src/parser/irbuilder/checker.rs`) -/

/-- A generic substitution (`Generics`): an assignment of generic slots to
    concrete types. The `Generics` type itself is not under `src/`; it is
    modelled from the spec as the substitution produced by unification. -/
abbrev Generics := List (Nat × Ty)

/-- `Generics::empty()`. -/
def Generics.empty : Generics := []

mutual

/-- Modelled from the spec: one step of generic unification (§4.2 item 4).
    A declared parameter type is matched against a concrete call-site type;
    each `Generic(g)` must be assigned one concrete type consistently, and
    non-generic structure must agree. -/
def unify_ty : Ty → Ty → Generics → Option Generics
  | .generic g, t, acc =>
    (match acc.lookup g with
     | some t' => if t' = t then some acc else none
     | none => some ((g, t) :: acc))
  | .list a, .list b, acc => unify_ty a b acc
  | .func ps r, .func qs s, acc =>
    (match unify_tys ps qs acc with
     | some acc' => unify_ty r s acc'
     | none => none)
  | a, b, acc => if a = b then some acc else none

/-- Modelled from the spec: pairwise unification of a declared
    parameter-type vector against the call-site types. -/
def unify_tys : List Ty → List Ty → Generics → Option Generics
  | [], [], acc => some acc
  | a :: as, b :: bs, acc =>
    (match unify_ty a b acc with
     | some acc' => unify_tys as bs acc'
     | none => none)
  | _, _, _ => none

end

/-- Modelled from the spec: `generic_search` (its source is not under
    `src/`). Scan the variants of one name; the first variant whose declared
    parameter-type vector unifies with the call-site types is returned
    together with the produced substitution. -/
def generic_search : List (List Ty × Nat) → List Ty → Option (Nat × Generics)
  | [], _ => none
  | (sig, id) :: rest, params =>
    match unify_tys sig params [] with
    | some gens => some (id, gens)
    | none => generic_search rest params

/-- One function entry of a module; only the declared return type
    (`FunctionBuilder::returns`, `src/parser/function.rs`) is consulted by
    the embedded fragment. -/
structure FuncEntry where
  returns : Ty

/-- `ParseModule` from `src/parser/leafmod.rs`, with the two-level
    `function_ids` map and the import map rendered as association lists. -/
structure ParseModule where
  function_ids : List (String × List (List Ty × Nat))
  functions : List FuncEntry
  imports : List (String × Nat)

/-- Modelled from the spec: the built-in prelude module id (`PRELUDE_FID`;
    its defining constant is not under `src/`, the spec fixes only that it is
    a single distinguished id). -/
def PRELUDE_FID : Nat := 0

/-- `find_matching_function` from `src/parser/irbuilder/checker.rs`.
    Panics (`assert_eq!` on the path length, out-of-bounds module indexing,
    the `unreachable!()` arm) are `.panicked`. The recursion (the single
    prelude retry) is paid for with fuel. -/
def find_matching_function :
    Nat → List ParseModule → Nat → List String → List Ty → Res (Nat × Nat × Generics)
  | 0, _, _, _, _ => .nofuel
  | fuel + 1, modules, self_fid, ident, params =>
    match (match ident with
           | [name] => Res.ok (self_fid, name)
           | [a, b] =>
             (match modules[self_fid]? with
              | none => Res.panicked
              | some m =>
                match m.imports.lookup a with
                | none => Res.fault (Fault.moduleNotImported a)
                | some fid => Res.ok (fid, b))
           | _ => Res.panicked) with
    | .ok (fid, funcname) =>
      (match modules[fid]? with
       | none => .panicked
       | some module =>
         match module.function_ids.lookup funcname with
         | none =>
           if fid = self_fid ∧ fid ≠ PRELUDE_FID then
             match find_matching_function fuel modules PRELUDE_FID [funcname] params with
             | .ok r => .ok r
             | .fault (.functionNotFound name _) => .fault (.functionNotFound name fid)
             | .fault (.functionVariantNotFound name ps pfid) =>
               .fault (.functionVariantNotFound name ps pfid)
             | .fault _ => .panicked
             | .panicked => .panicked
             | .nofuel => .nofuel
           else .fault (.functionNotFound funcname self_fid)
         | some variants =>
           match variants.lookup params with
           | some funcid => .ok (funcid, fid, Generics.empty)
           | none =>
             match generic_search variants params with
             | some (funcid, gens) => .ok (funcid, fid, gens)
             | none => .fault (.functionVariantNotFound funcname params fid))
    | .fault f => .fault f
    | .panicked => .panicked
    | .nofuel => .nofuel

/-! ## Type checker (`type_check` in `src/parser/irbuilder/checker.rs`) -/

/-- The checker-stage token tree: the arms of `type_check` exercised by the
    verified claims. (`Parameterized` — whose interest is the `RefCell`
    recursion guard — and `ByPointer` are not part of the embedded
    fragment.) -/
inductive CTok where
  | inlined (v : Inlinable)
  | unimpl
  | rustCall (id : Nat) (t : Ty)
  | firstStatement (entries : List CTok)
  | identifier (ident : List String)
  | ifExpr (branches : List (CTok × CTok)) (els : CTok)
  | listE (entries : List CTok)

/-- The checking context: the module table plus the `FunctionSource`
    accessors used by `type_check` (`source.fid()`, `source.returns(..)`,
    `func.get_parameter`, `func.get_parameter_type`; `fsource.rs` is not
    under `src/`, its accessors are modelled as record fields). -/
structure Checker where
  modules : List ParseModule
  src_fid : Nat
  src_returns : Ty
  src_param_names : List String
  src_param_types : List Ty

/-- `FunctionBuilder::get_parameter` (`src/parser/function.rs`): index of the
    first parameter whose name matches. -/
def get_parameter_from (i : Nat) : List String → String → Option Nat
  | [], _ => none
  | n :: ns, ident =>
    if n = ident then some i else get_parameter_from (i + 1) ns ident

/-- `get_parameter` starting from index 0. -/
def get_parameter (names : List String) (ident : String) : Option Nat :=
  get_parameter_from 0 names ident

/-- Modelled from the spec: `type_check_function_source` (not under `src/`).
    Spec §4.3: look the name up with the parameter-type vector via §4.2 and
    return the resolved function's return type with the generic substitution
    applied (`Type::decoded`). -/
def type_check_function_source (fuel : Nat) (ctx : Checker) (ident : List String)
    (params : List Ty) : Res Ty :=
  match find_matching_function fuel ctx.modules ctx.src_fid ident params with
  | .ok (funcid, fid, gens) =>
    (match ctx.modules[fid]? with
     | none => .panicked
     | some m =>
       match m.functions[funcid]? with
       | none => .panicked
       | some f => .ok (f.returns.decoded gens))
  | .fault f => .fault f
  | .panicked => .panicked
  | .nofuel => .nofuel

/-- The `RawToken::List` arm of `type_check`: fold over the entries carrying
    the type of the first entry (`of_t`) and the running index. -/
def check_list_entries (chk : CTok → Res Ty) : Option Ty → Nat → List CTok → Res Ty
  | of_t, _, [] => .ok (.list (of_t.getD (.generic 0)))
  | of_t, i, e :: es =>
    match chk e with
    | .ok t =>
      (match of_t with
       | some t0 =>
         if t0 = t then check_list_entries chk (some t0) (i + 1) es
         else .fault (.listEntryTypeMismatch t t0 i)
       | none => check_list_entries chk (some t) (i + 1) es)
    | .fault f => .fault f
    | .panicked => .panicked
    | .nofuel => .nofuel

/-- The `RawToken::FirstStatement` arm of `type_check`: check
    `entries[0..len-1]` in order, return the type of the last; the
    out-of-bounds slice taken from an empty vector is a panic. -/
def check_first (chk : CTok → Res Ty) : List CTok → Res Ty
  | [] => .panicked
  | [e] => chk e
  | e :: e2 :: es =>
    match chk e with
    | .ok _ => check_first chk (e2 :: es)
    | r => r

/-- The `RawToken::IfExpression` arm of `type_check`: each condition must
    check to `Bool` (else a fatal panic), all branch values and the else must
    share one type (else a fatal panic). -/
def check_if (chk : CTok → Res Ty) : Option Ty → List (CTok × CTok) → CTok → Res Ty
  | expect, [], els =>
    (match chk els with
     | .ok ev =>
       (match expect with
        | some t => if ev = t then .ok t else .panicked
        | none => .panicked)
     | r => r)
  | expect, (c, e) :: bs, els =>
    (match chk c with
     | .ok cv =>
       if cv = Ty.bool then
         match chk e with
         | .ok ev =>
           (match expect with
            | some t => if ev = t then check_if chk (some t) bs els else .panicked
            | none => check_if chk (some ev) bs els)
         | r => r
       else .panicked
     | .fault f => .fault f
     | .panicked => .panicked
     | .nofuel => .nofuel)

/-- `type_check` from `src/parser/irbuilder/checker.rs`, over the embedded
    token fragment. -/
def check_type : Nat → Checker → CTok → Res Ty
  | 0, _, _ => .nofuel
  | fuel + 1, ctx, tok =>
    match tok with
    | .inlined v => .ok (inlinable_type v)
    | .unimpl => .ok ctx.src_returns
    | .rustCall _ t => .ok t
    | .firstStatement entries => check_first (check_type fuel ctx) entries
    | .identifier ident =>
      (match ident with
       | [single] =>
         (match get_parameter ctx.src_param_names single with
          | some pid =>
            (match ctx.src_param_types[pid]? with
             | some t => .ok t
             | none => .panicked)
          | none => type_check_function_source fuel ctx ident [])
       | _ => type_check_function_source fuel ctx ident [])
    | .ifExpr branches els => check_if (check_type fuel ctx) none branches els
    | .listE entries => check_list_entries (check_type fuel ctx) none 0 entries

/-! ## Evaluator (`Runner` in `src/interpreter/runner.rs`) -/

/-- `Capturable` from the IR (modelled from the spec §3 and the arms matched
    in `src/interpreter/runner.rs`). -/
inductive Capturable where
  | parentParam (n : Nat)
  | parentLambda (n : Nat)
  | parentWhere (n : Nat)

mutual

/-- The IR expression tree executed by the evaluator (`crate::ir::Entity`;
    its defining module is not under `src/` — the constructors and payloads
    are those matched by `Runner::run` in `src/interpreter/runner.rs` and
    listed in spec §3). -/
inductive IREntity where
  | inlined (v : Value)
  | parameter (n : Nat)
  | captured (n : Nat)
  | functionCall (findex : Nat) (args : List IREntity)
  | parameterCall (paramid : Nat) (args : List IREntity)
  | capturedCall (capid : Nat) (args : List IREntity)
  | rustCall (index : Nat) (args : List IREntity)
  | ifExpr (branches : List (IREntity × IREntity)) (els : IREntity)
  | firstStatement (stmts : List IREntity) (eval : IREntity)
  | list (entries : List IREntity)
  | constructRecord (fields : List IREntity)
  | lambda (all : List IREntity) (to_capture : List Capturable)
  | lambdaPointer (inner : IREntity) (to_capture : List Capturable)
  | unimplemented
  | unique

/-- Runtime values (`crate::ir::Value`, spec §3). -/
inductive Value where
  | int (i : Int)
  | float (bits : Nat)
  | bool (b : Bool)
  | nothing
  | list (vs : List Value)
  | structV (fields : List Value)
  | function (body : IREntity) (captured : List Value)

end

/-- The linked program (`Runtime`): the flat instruction table plus the
    bridged dispatch table (`eval_bridged` is not under `src/`; the dispatch
    is modelled from the spec as a table indexed by the small integer id,
    `none` standing for its panics). -/
structure Runtime where
  instructions : List IREntity
  bridge_dispatch : Nat → List Value → Option Value

/-- `Runner::eval_params`: evaluate a list left-to-right (each element in a
    sub-frame), collecting the values. -/
def map_res {α β : Type} (run1 : α → Res β) : List α → Res (List β)
  | [] => .ok []
  | a :: as =>
    match run1 a with
    | .ok v =>
      (match map_res run1 as with
       | .ok vs => .ok (v :: vs)
       | r => r)
    | .fault f => .fault f
    | .panicked => .panicked
    | .nofuel => .nofuel

/-- `Runner::if_expression`: try branch conditions in order; the first one
    evaluating to `Bool(true)` selects its evaluation; any other value falls
    through; when none matches, the else branch runs. -/
def if_select (run1 : IREntity → Res Value) :
    List (IREntity × IREntity) → IREntity → Res Value
  | [], els => run1 els
  | (c, e) :: bs, els =>
    match run1 c with
    | .ok (.bool true) => run1 e
    | .ok _ => if_select run1 bs els
    | .fault f => .fault f
    | .panicked => .panicked
    | .nofuel => .nofuel

/-- Snapshot the captured slots for a `Lambda` / `LambdaPointer`:
    `ParentParam(n)` clones parameter n (out-of-bounds is a panic);
    `ParentLambda` is `unreachable!()` and `ParentWhere` is
    `unimplemented!()`, both panics (`none`). -/
def capture_values : List Capturable → List Value → Option (List Value)
  | [], _ => some []
  | .parentParam n :: rest, params =>
    (match params[n]? with
     | some v => (capture_values rest params).map (v :: ·)
     | none => none)
  | .parentLambda _ :: _, _ => none
  | .parentWhere _ :: _, _ => none

/-- Split a non-empty list into its leading elements and its last element. -/
def init_last {α : Type} : α → List α → List α × α
  | a, [] => ([], a)
  | a, b :: bs =>
    let r := init_last b bs
    (a :: r.1, r.2)

/-- `Runner::run` from `src/interpreter/runner.rs`: the frame-rewriting
    evaluation loop, with the loop's in-place frame rewrites rendered as
    recursive calls. Out-of-bounds slot/instruction indexing, the
    `unreachable!()` arms, and the `Unimplemented` trap are `.panicked`. -/
def runner_run : Nat → Runtime → IREntity → List Value → List Value → Res Value
  | 0, _, _, _, _ => .nofuel
  | fuel + 1, rt, entity, params, captured =>
    match entity with
    | .rustCall index args =>
      (match map_res (fun e => runner_run fuel rt e params captured) args with
       | .ok vs =>
         (match rt.bridge_dispatch index vs with
          | some v => .ok v
          | none => .panicked)
       | .fault f => .fault f
       | .panicked => .panicked
       | .nofuel => .nofuel)
    | .parameter n =>
      (match params[n]? with
       | some v => .ok v
       | none => .panicked)
    | .inlined v => .ok v
    | .ifExpr branches els =>
      if_select (fun e => runner_run fuel rt e params captured) branches els
    | .firstStatement stmts eval =>
      (match map_res (fun e => runner_run fuel rt e params captured) stmts with
       | .ok _ => runner_run fuel rt eval params captured
       | .fault f => .fault f
       | .panicked => .panicked
       | .nofuel => .nofuel)
    | .list entries =>
      (match entries with
       | [] => .panicked
       | e :: es =>
         match map_res (fun x => runner_run fuel rt x params captured) (init_last e es).1 with
         | .ok vs =>
           (match runner_run fuel rt (init_last e es).2 params captured with
            | .ok v => .ok (.list (vs ++ [v]))
            | r => r)
         | .fault f => .fault f
         | .panicked => .panicked
         | .nofuel => .nofuel)
    | .parameterCall paramid args =>
      (match map_res (fun e => runner_run fuel rt e params captured) args with
       | .ok vs =>
         (match params[paramid]? with
          | some (.function body fcap) => runner_run fuel rt body vs fcap
          | some _ => .panicked
          | none => .panicked)
       | .fault f => .fault f
       | .panicked => .panicked
       | .nofuel => .nofuel)
    | .capturedCall capid args =>
      (match map_res (fun e => runner_run fuel rt e params captured) args with
       | .ok vs =>
         (match captured[capid]? with
          | some (.function body fcap) => runner_run fuel rt body vs fcap
          | some _ => .panicked
          | none => .panicked)
       | .fault f => .fault f
       | .panicked => .panicked
       | .nofuel => .nofuel)
    | .captured n =>
      (match captured[n]? with
       | some v => .ok v
       | none => .panicked)
    | .lambda all to_capture =>
      (match all with
       | [] => .panicked
       | body :: entries =>
         match capture_values to_capture params with
         | some buf =>
           (match map_res (fun e => runner_run fuel rt e params captured) entries with
            | .ok ps => runner_run fuel rt body ps buf
            | .fault f => .fault f
            | .panicked => .panicked
            | .nofuel => .nofuel)
         | none => .panicked)
    | .functionCall findex args =>
      (match map_res (fun e => runner_run fuel rt e params captured) args with
       | .ok ps =>
         (match rt.instructions[findex]? with
          | some e => runner_run fuel rt e ps captured
          | none => .panicked)
       | .fault f => .fault f
       | .panicked => .panicked
       | .nofuel => .nofuel)
    | .lambdaPointer inner to_capture =>
      (match capture_values to_capture params with
       | some cs => .ok (.function inner cs)
       | none => .panicked)
    | .constructRecord fields =>
      (match map_res (fun e => runner_run fuel rt e params captured) fields with
       | .ok vs => .ok (.structV vs)
       | .fault f => .fault f
       | .panicked => .panicked
       | .nofuel => .nofuel)
    | .unimplemented => .panicked
    | .unique => .panicked

/-! ## AST builder (`src/parser/ast/builder.rs`) -/

mutual

/-- The AST expression tree (`Entity` in `src/parser/ast`), as produced by
    the builder; `Tracked` source positions are not modelled. -/
inductive Entity where
  | inlined (v : Inlinable)
  | singleIdent (a : AIdent)
  | call (c : Callable) (args : List Entity)
  | lambda (params : List AIdent) (body : Entity)
  | pass (p : Passable)
  | ifE (branches : List (Entity × Entity)) (els : Entity)
  | first (stmts : List Entity)
  | list (entries : List Entity)
  | record (name : AIdent) (fields : List (String × Entity))
  | unimplemented

/-- `Callable`: what may head an application. -/
inductive Callable where
  | func (a : AIdent)
  | builtin (a : AIdent)
  | lambda (params : List AIdent) (body : Entity)

/-- `Passable`: the subset valid behind the `#` closure marker. -/
inductive Passable where
  | value (v : Inlinable)
  | func (a : AIdent)
  | partFunc (c : Callable) (args : List Entity)
  | lambda (params : List AIdent) (body : Entity)

end

/-- Modelled from the spec: the bare-callable fallback of
    `run_maybe_parameterized` (`takes.clone().swap(takes)`; the `Tracked`
    type and its callable-to-entity conversion are not under `src/`). Spec
    §3 fixes `SingleIdent` as the entity of a bare name, and spec §8
    parser invariant 2 (`(e)` and `e` parse to the same `Entity`) fixes the
    lambda case; a bare builtin becomes its zero-argument call. -/
def callable_entity : Callable → Entity
  | .func a => .singleIdent a
  | .builtin a => .call (.builtin a) []
  | .lambda ps b => .lambda ps b

/-- Sequencing of parse steps: propagate faults, panics and fuel
    exhaustion. -/
def Res.bind {α β : Type} : Res α → (α → Res β) → Res β
  | .ok a, f => f a
  | .fault e, _ => .fault e
  | .panicked, _ => .panicked
  | .nofuel, _ => .nofuel

/-- `next_can_be_parameter`: peek (skipping and consuming newlines) and
    decide whether the next token can start an argument. -/
def next_can_be_parameter : List Tok → Bool × List Tok
  | [] => (false, [])
  | t :: ts =>
    match t with
    | .inlined _ => (true, t :: ts)
    | .key .pipe => (true, t :: ts)
    | .key .parenOpen => (true, t :: ts)
    | .key .closureMarker => (true, t :: ts)
    | .key .listOpen => (true, t :: ts)
    | .ident a => (!a.is_operator, t :: ts)
    | .newline => next_can_be_parameter ts
    | _ => (false, t :: ts)

/-- `lambda_should_consume_pipe`: skip newlines; report (without consuming)
    whether a pipe follows a lambda literal. -/
def lambda_should_consume_pipe : List Tok → Bool × List Tok
  | [] => (false, [])
  | .key .pipe :: ts => (true, .key .pipe :: ts)
  | .newline :: ts => lambda_should_consume_pipe ts
  | t :: ts => (false, t :: ts)

/-- The parameter loop of `run_lambda`: identifiers until the arrow. -/
def collect_lambda_params : List Tok → Res (List AIdent × List Tok)
  | [] => .fault (.unexpected (.key .lambdaKey))
  | .ident a :: ts =>
    (collect_lambda_params ts).bind fun (ps, rest) => .ok (a :: ps, rest)
  | .key .arrow :: ts => .ok ([], ts)
  | t :: _ => .fault (.gotButExpected t ["lambda parameter", "->"])

/-- The `then`-expecting loop of `run_if_expression` (newlines skipped). -/
def expect_then : List Tok → Res (List Tok)
  | [] => .fault .ifMissingThen
  | .key .kThen :: ts => .ok ts
  | .newline :: ts => expect_then ts
  | t :: _ => .fault (.ifWantedThen t)

/-- The `elif`/`else`-expecting loop of `run_if_expression`; `true` for
    `elif`. -/
def if_branch_sep : List Tok → Res (Bool × List Tok)
  | [] => .fault .ifMissingThen
  | .key .kElif :: ts => .ok (true, ts)
  | .key .kElse :: ts => .ok (false, ts)
  | .newline :: ts => if_branch_sep ts
  | t :: _ => .fault (.gotButExpected t ["elif", "else"])

/-- The `and`/`then`-expecting loop of `run_first_statement`; `true` for
    `and`. -/
def first_sep : List Tok → Res (Bool × List Tok)
  | [] => .fault .firstMissingThen
  | .key .kAnd :: ts => .ok (true, ts)
  | .key .kThen :: ts => .ok (false, ts)
  | .newline :: ts => first_sep ts
  | t :: _ => .fault (.firstWantedThen t)

mutual

/-- `run_chunk`: parse one expression from the head of the token stream. -/
def run_chunk : Nat → List Tok → Res (Entity × List Tok)
  | 0, _ => .nofuel
  | fuel + 1, ts =>
    match ts with
    | [] => .fault .emptyParen
    | t :: ts' =>
      match t with
      | .header => .fault .emptyParen
      | .key .kWhere => .fault .emptyParen
      | .key .parenOpen =>
        (run_chunk fuel ts').bind fun (v, r1) =>
          match r1 with
          | .key .parenClose :: r2 =>
            (match v with
             | .lambda ps body => run_maybe_parameterized fuel (.lambda ps body) r2
             | _ => run_maybe_operator fuel v r2)
          | _ => .fault (.unmatched .parenOpen)
      | .key .primitiveUnimplemented => .ok (.unimplemented, ts')
      | .inlined v => run_maybe_operator fuel (.inlined v) ts'
      | .key .listOpen =>
        (run_list fuel ts').bind fun (v, r1) => run_maybe_operator fuel v r1
      | .key .recordOpen => run_record fuel ts'
      | .key .kIf =>
        (run_if fuel [] ts').bind fun (v, r1) => run_maybe_operator fuel v r1
      | .key .kFirst =>
        (run_first fuel [] ts').bind fun (v, r1) => run_maybe_operator fuel v r1
      | .ident a =>
        (run_maybe_parameterized fuel
            (match a.ident.path with
             | "builtin" :: rest => Callable.builtin ⟨⟨rest, a.ident.name, a.ident.kind⟩, a.anot⟩
             | _ => Callable.func a) ts').bind
          fun (v, r1) => run_maybe_operator fuel v r1
      | .key .lambdaKey =>
        (run_lambda fuel ts').bind fun (v, r1) =>
          match lambda_should_consume_pipe r1 with
          | (true, r2) =>
            (match r2 with
             | _ :: r3 =>
               (run_chunk fuel r3).bind fun (piped, r4) =>
                 match v with
                 | .lambda ps body => .ok (.call (.lambda ps body) [piped], r4)
                 | _ => .panicked
             | [] => .panicked)
          | (false, r2) => .ok (v, r2)
      | .newline => run_chunk fuel ts'
      | _ => .fault (.unexpected t)

/-- `run_maybe_parameterized`: if the next token can start an argument,
    collect arguments and build a call (then look for a trailing operator);
    otherwise yield the bare callable. -/
def run_maybe_parameterized : Nat → Callable → List Tok → Res (Entity × List Tok)
  | 0, _, _ => .nofuel
  | fuel + 1, takes, ts =>
    match next_can_be_parameter ts with
    | (true, ts2) =>
      (run_parameterized fuel ts2).bind fun (params, r1) =>
        run_maybe_operator fuel (.call takes params) r1
    | (false, ts2) => .ok (callable_entity takes, ts2)

/-- `run_parameterized`: greedily collect argument entities. -/
def run_parameterized : Nat → List Tok → Res (List Entity × List Tok)
  | 0, _ => .nofuel
  | fuel + 1, ts =>
    match ts with
    | [] => .ok ([], [])
    | t :: ts' =>
      match t with
      | .inlined v =>
        (run_parameterized fuel ts').bind fun (params, rest) =>
          .ok (.inlined v :: params, rest)
      | .ident a =>
        if a.is_operator then .ok ([], t :: ts')
        else
          (run_parameterized fuel ts').bind fun (params, rest) =>
            .ok (.singleIdent a :: params, rest)
      | .key .parenOpen =>
        (run_chunk fuel ts').bind fun (v, r1) =>
          match r1 with
          | .key .parenClose :: r2 =>
            (run_parameterized fuel r2).bind fun (params, rest) =>
              .ok (v :: params, rest)
          | other :: _ => .fault (.gotButExpected other [")"])
          | [] => .fault (.unmatched .parenOpen)
      | .key .recordOpen =>
        (run_record fuel ts').bind fun (v, rest) => .ok ([v], rest)
      | .key .pipe =>
        (run_chunk fuel ts').bind fun (v, rest) => .ok ([v], rest)
      | .key .listOpen =>
        (run_list fuel ts').bind fun (v, r1) =>
          (run_parameterized fuel r1).bind fun (params, rest) =>
            .ok (v :: params, rest)
      | .key .closureMarker =>
        (run_closure_conversion fuel ts').bind fun (p, r1) =>
          (run_parameterized fuel r1).bind fun (params, rest) =>
            .ok (.pass p :: params, rest)
      | .header => .ok ([], t :: ts')
      | .key .kWhere => .ok ([], t :: ts')
      | .key .parenClose => .ok ([], t :: ts')
      | .key .kThen => .ok ([], t :: ts')
      | .key .kElse => .ok ([], t :: ts')
      | .key .listClose => .ok ([], t :: ts')
      | .key .kAnd => .ok ([], t :: ts')
      | .key .kElif => .ok ([], t :: ts')
      | .newline => run_parameterized fuel ts'
      | _ => .fault (.unexpectedWantedParameter t)

/-- `run_closure_conversion`: the `#` marker's operand. -/
def run_closure_conversion : Nat → List Tok → Res (Passable × List Tok)
  | 0, _ => .nofuel
  | fuel + 1, ts =>
    match ts with
    | [] => .fault (.unexpected (.key .closureMarker))
    | .key .parenOpen :: ts' =>
      (run_chunk fuel ts').bind fun (entity, r1) =>
        match r1 with
        | .key .parenClose :: r2 =>
          (match entity with
           | .inlined v => .ok (.value v, r2)
           | .lambda ps body => .ok (.lambda ps body, r2)
           | .singleIdent a => .ok (.func a, r2)
           | .call c args => .ok (.partFunc c args, r2)
           | _ => .fault .invalidClosure)
        | other :: _ => .fault (.unexpected other)
        | [] => .fault (.unmatched .parenOpen)
    | .ident a :: ts' => .ok (.func a, ts')
    | .inlined v :: ts' => .ok (.value v, ts')
    | t :: _ => .fault (.invalidClosureT t)

/-- `run_maybe_operator`: if an operator identifier follows, continue with
    `run_operator`; otherwise yield the left operand unchanged. -/
def run_maybe_operator : Nat → Entity → List Tok → Res (Entity × List Tok)
  | 0, _, _ => .nofuel
  | fuel + 1, left, ts =>
    match ts with
    | [] => .ok (left, [])
    | .ident a :: ts' =>
      if a.is_operator then run_operator fuel left a ts'
      else .fault (.unexpected (.ident a))
    | t :: ts' => .ok (left, t :: ts')

/-- `run_operator`: parse the whole rest of the chunk as the right operand
    (right associativity), build `Call(Func(op), [left, right])`. The
    `assert!(op.is_operator())` is a panic when violated. -/
def run_operator : Nat → Entity → AIdent → List Tok → Res (Entity × List Tok)
  | 0, _, _, _ => .nofuel
  | fuel + 1, left, op, ts =>
    (run_chunk fuel ts).bind fun (right, r1) =>
      if op.is_operator then
        run_maybe_operator fuel (.call (.func op) [left, right]) r1
      else .panicked

/-- `run_lambda`: parameters up to the arrow, then one chunk as the body. -/
def run_lambda : Nat → List Tok → Res (Entity × List Tok)
  | 0, _ => .nofuel
  | fuel + 1, ts =>
    (collect_lambda_params ts).bind fun (ps, r1) =>
      (run_chunk fuel r1).bind fun (body, r2) => .ok (.lambda ps body, r2)

/-- The branch loop of `run_if_expression`, carrying the accumulated
    branches. -/
def run_if : Nat → List (Entity × Entity) → List Tok → Res (Entity × List Tok)
  | 0, _, _ => .nofuel
  | fuel + 1, acc, ts =>
    (run_chunk fuel ts).bind fun (cond, r1) =>
      (expect_then r1).bind fun r2 =>
        (run_chunk fuel r2).bind fun (ev, r3) =>
          (if_branch_sep r3).bind fun (sep, r4) =>
            if sep then run_if fuel (acc ++ [(cond, ev)]) r4
            else
              (run_chunk fuel r4).bind fun (last, r5) =>
                .ok (.ifE (acc ++ [(cond, ev)]) last, r5)

/-- The statement loop of `run_first_statement`, carrying the accumulated
    statements; after `then` one final chunk is parsed and appended. -/
def run_first : Nat → List Entity → List Tok → Res (Entity × List Tok)
  | 0, _, _ => .nofuel
  | fuel + 1, acc, ts =>
    (run_chunk fuel ts).bind fun (v, r1) =>
      (first_sep r1).bind fun (sep, r2) =>
        if sep then run_first fuel (acc ++ [v]) r2
        else
          (run_chunk fuel r2).bind fun (w, r3) =>
            .ok (.first (acc ++ [v, w]), r3)

/-- `run_list`: the empty-list edge case, then the element loop. -/
def run_list : Nat → List Tok → Res (Entity × List Tok)
  | 0, _ => .nofuel
  | fuel + 1, ts =>
    match ts with
    | .key .listClose :: ts' => .ok (.list [], ts')
    | _ => run_list_items fuel [] ts

/-- The element loop of `run_list`, carrying the accumulated elements. -/
def run_list_items : Nat → List Entity → List Tok → Res (Entity × List Tok)
  | 0, _, _ => .nofuel
  | fuel + 1, buf, ts =>
    (run_chunk fuel ts).bind fun (v, r1) =>
      match r1 with
      | .key .listClose :: r2 => .ok (.list (buf ++ [v]), r2)
      | .key .comma :: r2 => run_list_items fuel (buf ++ [v]) r2
      | other :: _ => .fault (.gotButExpected other [",", "]"])
      | [] => .fault (.unmatched .listOpen)

/-- `run_record`: type name, dot, then the field list. -/
def run_record : Nat → List Tok → Res (Entity × List Tok)
  | 0, _ => .nofuel
  | fuel + 1, ts =>
    match ts with
    | [] => .fault (.endedWhileExpecting ["type name", "identifier"])
    | .ident name :: ts2 =>
      (match ts2 with
       | .key .dot :: ts3 =>
         (run_record_fields fuel ts3).bind fun (fields, rest) =>
           .ok (.record name fields, rest)
       | t :: _ => .fault (.gotButExpected t ["."])
       | [] => .fault (.endedWhileExpecting ["."]))
    | t :: _ => .fault (.gotButExpected t ["type name", "identifier"])

/-- `run_record_fields`: one `field value` pair; on a comma the *rest* of the
    fields is parsed first and the current pair is pushed at the end. -/
def run_record_fields : Nat → List Tok → Res (List (String × Entity) × List Tok)
  | 0, _ => .nofuel
  | fuel + 1, ts =>
    match ts with
    | [] => .fault (.endedWhileExpecting ["field name"])
    | .ident nm :: ts2 =>
      (run_chunk fuel ts2).bind fun (value, r1) =>
        match r1 with
        | [] => .fault (.endedWhileExpecting ["\x7d"])
        | .key .comma :: r2 =>
          (run_record_fields fuel r2).bind fun (buf, rest) =>
            .ok (buf ++ [(nm.ident.name, value)], rest)
        | .key .recordClose :: r2 => .ok ([(nm.ident.name, value)], r2)
        | _ :: _ => .panicked
    | t :: _ => .fault (.gotButExpected t ["field name"])

end

/-! ## Shared concrete fixtures for witnesses -/

/-- A two-variant module for witnesses: `f` has an exact `int` variant (id 0)
    and a generic `a` variant (id 1). -/
def wit_user : ParseModule :=
  ⟨[("f", [([Ty.int], 0), ([Ty.generic 0], 1)])], [⟨.int⟩, ⟨.generic 0⟩], []⟩

/-- A prelude module for witnesses: `g` with one `int` variant (id 3). -/
def wit_prelude : ParseModule :=
  ⟨[("g", [([Ty.int], 3)])], [⟨.bool⟩, ⟨.bool⟩, ⟨.bool⟩, ⟨.int⟩], []⟩

/-- Witness module table: the prelude at `PRELUDE_FID = 0`, a user module at
    id 1. -/
def wit_mods : List ParseModule := [wit_prelude, wit_user]

/-- A trivial runtime for witnesses. -/
def wit_rt : Runtime := ⟨[], fun _ _ => none⟩

/-- A trivial checking context for witnesses. -/
def wit_checker : Checker := ⟨[], 0, .int, [], []⟩

/-- The operator identifier `+` for witnesses. -/
def wit_plus : AIdent := ⟨⟨[], "+", .operator⟩, none⟩

/-- The operator identifier `*` for witnesses. -/
def wit_star : AIdent := ⟨⟨[], "*", .operator⟩, none⟩

/-! ## C6 — the bridged-primitive table -/

/-- C6: `get_funcid` succeeds for exactly the eight names `add`, `sub`,
    `mul`, `div`, `push_back`, `push_front`, `get`, `len`, returning ids 0–7
    with the listed `NaiveType`s, and returns `BridgedFunctionNotFound` for
    every other name. -/
theorem get_funcid_table :
    get_funcid "add" = .ok (0, .matching 0) ∧
    get_funcid "sub" = .ok (1, .matching 0) ∧
    get_funcid "mul" = .ok (2, .matching 0) ∧
    get_funcid "div" = .ok (3, .matching 0) ∧
    get_funcid "push_back" = .ok (4, .matching 1) ∧
    get_funcid "push_front" = .ok (5, .matching 1) ∧
    get_funcid "get" = .ok (6, .unlistedMatching 1) ∧
    get_funcid "len" = .ok (7, .known .int) ∧
    ∀ s : String,
      s ∉ ["add", "sub", "mul", "div", "push_back", "push_front", "get", "len"] →
      get_funcid s = .error (.bridgedFunctionNotFound s) := by
  refine ⟨rfl, rfl, rfl, rfl, rfl, rfl, rfl, rfl, ?_⟩
  intro s hs
  simp only [List.mem_cons, List.not_mem_nil, or_false, not_or] at hs
  obtain ⟨h1, h2, h3, h4, h5, h6, h7, h8⟩ := hs
  simp [get_funcid, h1, h2, h3, h4, h5, h6, h7, h8]

/-- C6 witness: `eq` is outside the table and is rejected. -/
theorem get_funcid_table_witness :
    ("eq" : String) ∉ ["add", "sub", "mul", "div", "push_back", "push_front", "get", "len"] ∧
    get_funcid "eq" = .error (.bridgedFunctionNotFound "eq") :=
  ⟨by decide, get_funcid_table.2.2.2.2.2.2.2.2 "eq" (by decide)⟩

/-! ## C1 — the typing of `push_back` -/

/-- C1 counterexample: the bridge table assigns `push_back` the NaiveType
    `Matching(1)`, which on argument types `[List(Int), Int]` prescribes the
    type of argument 1, namely `Int` — not `List(Int)` as the claim
    states. -/
theorem push_back_naive_return_counterexample :
    get_funcid "push_back" = .ok (4, .matching 1) ∧
    naive_return (.matching 1) [.list .int, .int] = some .int ∧
    naive_return (.matching 1) [.list .int, .int] ≠ some (.list .int) := by
  refine ⟨rfl, rfl, ?_⟩
  decide

/-- C1 amended: for argument types `[List(Int), Int]` the bridge's
    `Matching(1)` computes return type `Int` (the type of argument 1); the
    declared `[a] a -> [a]` behaviour — `a := Int`, return `List(Int)` — is
    what generic unification of the leaf-level signature produces, and the
    checker returns a bridged call's precomputed type unchanged. -/
theorem push_back_types_amended :
    get_funcid "push_back" = .ok (4, .matching 1) ∧
    naive_return (.matching 1) [.list .int, .int] = some .int ∧
    unify_tys [.list (.generic 0), .generic 0] [.list .int, .int] [] =
      some [(0, .int)] ∧
    generic_search [([.list (.generic 0), .generic 0], 0)] [.list .int, .int] =
      some (0, [(0, .int)]) ∧
    Ty.decoded (.list (.generic 0)) [(0, .int)] = .list .int ∧
    (∀ fuel ctx t, check_type (fuel + 1) ctx (.rustCall 4 t) = .ok t) := by
  exact ⟨rfl, rfl, by decide, by decide, by decide, fun _ _ _ => rfl⟩

/-! ## C4 — exact match beats generic match -/

/-- C4: with the name present, an exact parameter-type-vector match returns
    that variant with the empty substitution (whether or not a generic match
    also exists); generic search runs only on exact miss; on double miss the
    result is `FunctionVariantNotFound(name, params, fid)`. -/
theorem find_matching_function_priority
    (fuel : Nat) (modules : List ParseModule) (self_fid : Nat) (name : String)
    (params : List Ty) (m : ParseModule) (variants : List (List Ty × Nat))
    (hm : modules[self_fid]? = some m)
    (hv : m.function_ids.lookup name = some variants) :
    (∀ funcid, variants.lookup params = some funcid →
      find_matching_function (fuel + 1) modules self_fid [name] params =
        .ok (funcid, self_fid, Generics.empty)) ∧
    (variants.lookup params = none →
      ∀ funcid gens, generic_search variants params = some (funcid, gens) →
        find_matching_function (fuel + 1) modules self_fid [name] params =
          .ok (funcid, self_fid, gens)) ∧
    (variants.lookup params = none → generic_search variants params = none →
      find_matching_function (fuel + 1) modules self_fid [name] params =
        .fault (.functionVariantNotFound name params self_fid)) := by
  refine ⟨?_, ?_, ?_⟩
  · intro funcid hx
    simp [find_matching_function, hm, hv, hx]
  · intro hx funcid gens hg
    simp [find_matching_function, hm, hv, hx, hg]
  · intro hx hg
    simp [find_matching_function, hm, hv, hx, hg]

/-- C4 witness: in `wit_user`, the call types `[Int]` match variant 0 exactly
    while variant 1 (`a`) would also unify; the exact variant with empty
    generics wins. -/
theorem find_matching_function_priority_witness :
    wit_user.function_ids.lookup "f" = some [([Ty.int], 0), ([Ty.generic 0], 1)] ∧
    unify_tys [Ty.generic 0] [Ty.int] [] = some [(0, Ty.int)] ∧
    find_matching_function 3 wit_mods 1 ["f"] [Ty.int] = .ok (0, 1, Generics.empty) :=
  ⟨rfl, rfl,
    (find_matching_function_priority 2 wit_mods 1 "f" [Ty.int] wit_user _ rfl rfl).1 0 rfl⟩

/-! ## C3 — prelude fallback and error rewriting -/

/-- Helper: a single-segment lookup can only report `FunctionNotFound` for
    the very name that was looked up. -/
theorem find_matching_function_notFound_name :
    ∀ (fuel : Nat) (modules : List ParseModule) (fid : Nat) (name : String)
      (params : List Ty) (n : String) (pf : Nat),
    find_matching_function fuel modules fid [name] params =
      .fault (.functionNotFound n pf) → n = name := by
  intro fuel
  induction fuel with
  | zero => intro _ _ _ _ _ _ h; simp [find_matching_function] at h
  | succ fuel ih =>
    intro modules fid name params n pf h
    simp only [find_matching_function] at h
    cases hm : modules[fid]? with
    | none => simp [hm] at h
    | some m =>
      cases hv : m.function_ids.lookup name with
      | some variants =>
        simp only [hm, hv] at h
        cases hx : variants.lookup params with
        | some funcid => simp [hx] at h
        | none =>
          simp only [hx] at h
          cases hg : generic_search variants params with
          | some r => obtain ⟨a, b⟩ := r; simp [hg] at h
          | none => simp [hg] at h
      | none =>
        simp only [hm, hv] at h
        by_cases hc : fid = PRELUDE_FID
        · rw [if_neg (by simp [hc])] at h
          simp only [Res.fault.injEq, Fault.functionNotFound.injEq] at h
          exact h.1.symm
        · rw [if_pos ⟨trivial, hc⟩] at h
          cases hr : find_matching_function fuel modules PRELUDE_FID [name] params with
          | ok r => simp [hr] at h
          | panicked => simp [hr] at h
          | nofuel => simp [hr] at h
          | fault f =>
            cases f <;> simp [hr] at h
            rename_i n' pf'
            obtain ⟨hn, _⟩ := h
            exact hn ▸ ih modules PRELUDE_FID name params n' pf' hr

/-- C3: an unqualified name missing from a non-prelude module `m` is retried
    in the prelude; a `FunctionNotFound` from the retry is rewritten to name
    module `m`, while a `FunctionVariantNotFound` is returned unchanged. -/
theorem find_matching_function_prelude_fallback
    (fuel : Nat) (modules : List ParseModule) (self_fid : Nat) (name : String)
    (params : List Ty) (m : ParseModule)
    (hm : modules[self_fid]? = some m)
    (hmiss : m.function_ids.lookup name = none)
    (hself : self_fid ≠ PRELUDE_FID) :
    (∀ n pf, find_matching_function fuel modules PRELUDE_FID [name] params =
        .fault (.functionNotFound n pf) →
      find_matching_function (fuel + 1) modules self_fid [name] params =
        .fault (.functionNotFound name self_fid)) ∧
    (∀ n ps pf, find_matching_function fuel modules PRELUDE_FID [name] params =
        .fault (.functionVariantNotFound n ps pf) →
      find_matching_function (fuel + 1) modules self_fid [name] params =
        .fault (.functionVariantNotFound n ps pf)) := by
  constructor
  · intro n pf hr
    have hn : n = name := find_matching_function_notFound_name fuel modules PRELUDE_FID
      name params n pf hr
    subst hn
    simp [find_matching_function, hm, hmiss, hself, hr]
  · intro n ps pf hr
    simp [find_matching_function, hm, hmiss, hself, hr]

/-- C3 witness: `h` is missing everywhere, so the user module (id 1) is the
    module named in the error; `g` exists in the prelude but with no `Bool`
    variant, and that `FunctionVariantNotFound` (naming the prelude, id 0)
    comes back unchanged. -/
theorem find_matching_function_prelude_fallback_witness :
    find_matching_function 2 wit_mods 1 ["h"] [] =
      .fault (.functionNotFound "h" 1) ∧
    find_matching_function 2 wit_mods 1 ["g"] [Ty.bool] =
      .fault (.functionVariantNotFound "g" [Ty.bool] 0) :=
  ⟨(find_matching_function_prelude_fallback 1 wit_mods 1 "h" [] wit_user rfl rfl
      (by decide)).1 "h" 0 rfl,
   (find_matching_function_prelude_fallback 1 wit_mods 1 "g" [Ty.bool] wit_user rfl rfl
      (by decide)).2 "g" [Ty.bool] 0 rfl⟩

/-! ## C5 — list literals in the type checker -/

/-- Helper: once the expected element type is `T`, entries of type `T` keep
    the fold going to `List(T)`. -/
theorem check_list_entries_homogeneous (chk : CTok → Res Ty) (T : Ty) :
    ∀ entries, (∀ e ∈ entries, chk e = .ok T) →
    ∀ i, check_list_entries chk (some T) i entries = .ok (.list T) := by
  intro entries
  induction entries with
  | nil => intro _ _; rfl
  | cons e es ih =>
    intro h i
    have he : chk e = .ok T := h e (List.mem_cons_self e es)
    simp [check_list_entries, he, ih (fun x hx => h x (List.mem_cons_of_mem e hx))]

/-- Helper: with expected type `T`, a prefix of `T`-typed entries followed by
    an entry of a different type `T'` fails at that entry's index. -/
theorem check_list_entries_mismatch (chk : CTok → Res Ty) (T T' : Ty)
    (hne : T' ≠ T) (bad : CTok) (hbad : chk bad = .ok T') :
    ∀ pre rest, (∀ e ∈ pre, chk e = .ok T) →
    ∀ i, check_list_entries chk (some T) i (pre ++ bad :: rest) =
      .fault (.listEntryTypeMismatch T' T (i + pre.length)) := by
  intro pre
  induction pre with
  | nil =>
    intro rest _ i
    have : ¬ (T = T') := fun h => hne h.symm
    simp [check_list_entries, hbad, this]
  | cons e es ih =>
    intro rest h i
    have he : chk e = .ok T := h e (List.mem_cons_self e es)
    have hrec := ih rest (fun x hx => h x (List.mem_cons_of_mem e hx)) (i + 1)
    calc check_list_entries chk (some T) i ((e :: es) ++ bad :: rest)
        = check_list_entries chk (some T) (i + 1) (es ++ bad :: rest) := by
          simp [check_list_entries, he]
      _ = .fault (.listEntryTypeMismatch T' T ((i + 1) + es.length)) := hrec
      _ = .fault (.listEntryTypeMismatch T' T (i + (e :: es).length)) := by
          congr 1
          congr 1
          simp
          omega

/-- C5: a non-empty list literal whose entries all check to `T` checks to
    `List(T)`; the first entry (index i ≥ 1) whose type differs from the
    preceding entries' common type fails with
    `ListEntryTypeMismatch(got, want, i)`; the empty list literal checks to
    `List(Generic(0))`. -/
theorem type_check_list (fuel : Nat) (ctx : Checker) :
    (∀ e0 rest T, (∀ e ∈ e0 :: rest, check_type fuel ctx e = .ok T) →
      check_type (fuel + 1) ctx (.listE (e0 :: rest)) = .ok (.list T)) ∧
    (∀ p0 pre bad rest T T',
      (∀ e ∈ p0 :: pre, check_type fuel ctx e = .ok T) →
      check_type fuel ctx bad = .ok T' → T' ≠ T →
      check_type (fuel + 1) ctx (.listE ((p0 :: pre) ++ bad :: rest)) =
        .fault (.listEntryTypeMismatch T' T (p0 :: pre).length)) ∧
    check_type (fuel + 1) ctx (.listE []) = .ok (.list (.generic 0)) := by
  refine ⟨?_, ?_, rfl⟩
  · intro e0 rest T h
    have h0 : check_type fuel ctx e0 = .ok T := h e0 (List.mem_cons_self e0 rest)
    have := check_list_entries_homogeneous (check_type fuel ctx) T rest
      (fun x hx => h x (List.mem_cons_of_mem e0 hx)) 1
    simp [check_type, check_list_entries, h0, this]
  · intro p0 pre bad rest T T' h hbad hne
    have h0 : check_type fuel ctx p0 = .ok T := h p0 (List.mem_cons_self p0 pre)
    have hrec := check_list_entries_mismatch (check_type fuel ctx) T T' hne bad hbad pre rest
      (fun x hx => h x (List.mem_cons_of_mem p0 hx)) 1
    calc check_type (fuel + 1) ctx (.listE ((p0 :: pre) ++ bad :: rest))
        = check_list_entries (check_type fuel ctx) (some T) 1 (pre ++ bad :: rest) := by
          simp [check_type, check_list_entries, h0]
      _ = .fault (.listEntryTypeMismatch T' T (1 + pre.length)) := hrec
      _ = .fault (.listEntryTypeMismatch T' T (p0 :: pre).length) := by
          congr 1
          congr 1
          simp
          omega

/-- C5 witness: `[1, 2]` checks to `List(Int)`; `[1, true]` fails at index 1
    with `ListEntryTypeMismatch(Bool, Int, 1)`; `[]` checks to
    `List(Generic(0))`. -/
theorem type_check_list_witness :
    check_type 2 wit_checker (.listE [.inlined (.int 1), .inlined (.int 2)]) =
      .ok (.list .int) ∧
    check_type 2 wit_checker (.listE [.inlined (.int 1), .inlined (.bool true)]) =
      .fault (.listEntryTypeMismatch .bool .int 1) ∧
    check_type 2 wit_checker (.listE []) = .ok (.list (.generic 0)) :=
  ⟨(type_check_list 1 wit_checker).1 (.inlined (.int 1)) [.inlined (.int 2)] .int
      (by intro e he
          simp only [List.mem_cons, List.not_mem_nil, or_false] at he
          rcases he with rfl | rfl <;> rfl),
   (type_check_list 1 wit_checker).2.1 (.inlined (.int 1)) [] (.inlined (.bool true)) []
      .int .bool
      (by intro e he
          simp only [List.mem_cons, List.not_mem_nil, or_false] at he
          rcases he with rfl <;> rfl)
      rfl (by decide),
   (type_check_list 1 wit_checker).2.2⟩

/-! ## C2 — record literal field order -/

/-- Token stream of a record literal's field list: `name value` pairs
    separated by commas, terminated by the closing brace. -/
def field_tokens : List (String × Inlinable) → List Tok
  | [] => []
  | [(nm, v)] =>
    [.ident ⟨⟨[], nm, .normal⟩, none⟩, .inlined v, .key .recordClose]
  | (nm, v) :: rest =>
    .ident ⟨⟨[], nm, .normal⟩, none⟩ :: .inlined v :: .key .comma :: field_tokens rest

/-- C2 counterexample: the record literal declaring fields `a` then `b`
    parses to an `Entity::Record` whose field vector lists `b` before `a` —
    not declaration order. -/
theorem record_literal_order_counterexample :
    run_chunk 10 [.key .recordOpen, .ident ⟨⟨[], "T", .normal⟩, none⟩, .key .dot,
      .ident ⟨⟨[], "a", .normal⟩, none⟩, .inlined (.int 1), .key .comma,
      .ident ⟨⟨[], "b", .normal⟩, none⟩, .inlined (.int 2), .key .recordClose] =
      .ok (.record ⟨⟨[], "T", .normal⟩, none⟩
        [("b", .inlined (.int 2)), ("a", .inlined (.int 1))], []) ∧
    (["b", "a"] : List String) ≠ ["a", "b"] :=
  ⟨rfl, by decide⟩

/-- Helper (C2 amended, field level): `run_record_fields` returns the parsed
    (name, value) pairs in reverse declaration order. -/
theorem run_record_fields_reversed :
    ∀ (fs : List (String × Inlinable)) (nm : String) (v : Inlinable) (n : Nat),
    run_record_fields (n + ((nm, v) :: fs).length + 2) (field_tokens ((nm, v) :: fs)) =
      .ok ((((nm, v) :: fs).map (fun p => (p.1, Entity.inlined p.2))).reverse, []) := by
  intro fs
  induction fs with
  | nil => intro nm v n; rfl
  | cons p fs' ih =>
    intro nm v n
    obtain ⟨nm', v'⟩ := p
    have step : run_record_fields (n + ((nm, v) :: (nm', v') :: fs').length + 2)
        (field_tokens ((nm, v) :: (nm', v') :: fs')) =
      (run_record_fields (n + ((nm', v') :: fs').length + 2)
          (field_tokens ((nm', v') :: fs'))).bind
        (fun r => .ok (r.1 ++ [(nm, Entity.inlined v)], r.2)) := rfl
    rw [step, ih nm' v' n]
    simp [Res.bind]

/-- C2 amended: a record literal of fields declared f1, ..., fn (with literal
    values) parses to `Entity::Record` listing the (name, value) pairs in
    reverse declaration order fn, ..., f1. -/
theorem record_literal_fields_reversed :
    ∀ (fs : List (String × Inlinable)) (nm : String) (v : Inlinable)
      (tyName : AIdent) (n : Nat),
    run_chunk (n + ((nm, v) :: fs).length + 4)
      (.key .recordOpen :: .ident tyName :: .key .dot :: field_tokens ((nm, v) :: fs)) =
      .ok (.record tyName
        ((((nm, v) :: fs).map (fun p => (p.1, Entity.inlined p.2))).reverse), []) := by
  intro fs nm v tyName n
  have step : run_chunk (n + ((nm, v) :: fs).length + 4)
      (.key .recordOpen :: .ident tyName :: .key .dot :: field_tokens ((nm, v) :: fs)) =
    (run_record_fields (n + ((nm, v) :: fs).length + 2)
        (field_tokens ((nm, v) :: fs))).bind
      (fun r => .ok (.record tyName r.1, r.2)) := rfl
  rw [step, run_record_fields_reversed fs nm v n]
  simp [Res.bind]

/-! ## C7 — right-associative operator parsing -/

/-- A "value" token and its parsed entity: an inline literal, or a plain
    (non-operator, unqualified) identifier. -/
inductive IsValueTok : Tok → Entity → Prop where
  | inl (v : Inlinable) : IsValueTok (.inlined v) (.inlined v)
  | idn (a : AIdent) : a.is_operator = false → a.ident.path = [] →
      IsValueTok (.ident a) (.singleIdent a)

/-- Helper: a value token at the head of the stream, when no argument can
    follow, parses to its entity and hands over to the operator check. -/
theorem run_chunk_value (m : Nat) (t : Tok) (e : Entity) (rest : List Tok)
    (h : IsValueTok t e) (hrest : next_can_be_parameter rest = (false, rest)) :
    run_chunk (m + 2) (t :: rest) = run_maybe_operator (m + 1) e rest := by
  cases h with
  | inl v => rfl
  | idn a hop hpath =>
    simp [run_chunk, hpath, run_maybe_parameterized, hrest, Res.bind, callable_entity]

/-- Helper: an operator identifier after a value hands over to
    `run_operator`. -/
theorem run_maybe_operator_op (m : Nat) (left : Entity) (op : AIdent)
    (hop : op.is_operator = true) (rest : List Tok) :
    run_maybe_operator (m + 1) left (.ident op :: rest) = run_operator m left op rest := by
  simp [run_maybe_operator, hop]

/-- Helper: no operator follows at end of input. -/
theorem run_maybe_operator_end (m : Nat) (left : Entity) :
    run_maybe_operator (m + 1) left [] = .ok (left, []) := rfl

/-- Helper: `run_operator` on a successfully parsed right operand. -/
theorem run_operator_ok (m : Nat) (left right : Entity) (op : AIdent)
    (ts r1 : List Tok)
    (hc : run_chunk m ts = .ok (right, r1)) (hop : op.is_operator = true) :
    run_operator (m + 1) left op ts =
      run_maybe_operator m (.call (.func op) [left, right]) r1 := by
  simp [run_operator, hc, Res.bind, hop]

/-- C7: for any token stream `v1 op1 v2 op2 v3` of values and operator
    identifiers, `run_chunk` parses right-associatively with uniform
    precedence: the result is `Call(Func(op1), [v1, Call(Func(op2),
    [v2, v3])])`, independent of which operators appear. -/
theorem operators_right_assoc
    (n : Nat) (t1 t2 t3 : Tok) (e1 e2 e3 : Entity) (op1 op2 : AIdent)
    (h1 : IsValueTok t1 e1) (h2 : IsValueTok t2 e2) (h3 : IsValueTok t3 e3)
    (hop1 : op1.is_operator = true) (hop2 : op2.is_operator = true) :
    run_chunk (n + 8) [t1, .ident op1, t2, .ident op2, t3] =
      .ok (.call (.func op1) [e1, .call (.func op2) [e2, e3]], []) := by
  have h3' : run_chunk (n + 2) [t3] = .ok (e3, []) := by
    rw [run_chunk_value n t3 e3 [] h3 rfl]
    exact run_maybe_operator_end n e3
  have h25 : run_chunk (n + 5) [t2, .ident op2, t3] =
      .ok (.call (.func op2) [e2, e3], []) := by
    rw [run_chunk_value (n + 3) t2 e2 _ h2 (by simp [next_can_be_parameter, hop2]),
      run_maybe_operator_op (n + 3) e2 op2 hop2,
      run_operator_ok (n + 2) e2 e3 op2 [t3] [] h3' hop2]
    exact run_maybe_operator_end (n + 1) _
  rw [run_chunk_value (n + 6) t1 e1 _ h1 (by simp [next_can_be_parameter, hop1]),
    run_maybe_operator_op (n + 6) e1 op1 hop1,
    run_operator_ok (n + 5) e1 (.call (.func op2) [e2, e3]) op1 _ [] h25 hop1]
  exact run_maybe_operator_end (n + 4) _

/-- C7 witness: `1 + 2 * 3` parses to `+ 1 (* 2 3)`. -/
theorem operators_right_assoc_witness :
    run_chunk 8 [.inlined (.int 1), .ident wit_plus, .inlined (.int 2),
      .ident wit_star, .inlined (.int 3)] =
      .ok (.call (.func wit_plus) [.inlined (.int 1),
        .call (.func wit_star) [.inlined (.int 2), .inlined (.int 3)]], []) :=
  operators_right_assoc 0 (.inlined (.int 1)) (.inlined (.int 2)) (.inlined (.int 3))
    (.inlined (.int 1)) (.inlined (.int 2)) (.inlined (.int 3)) wit_plus wit_star
    (.inl (.int 1)) (.inl (.int 2)) (.inl (.int 3)) (by decide) (by decide)

/-! ## C9 — `first` returns exactly the value of its final expression -/

/-- Helper: a list whose elements all evaluate to values maps to a value
    list. -/
theorem map_res_ok_of_all {α β : Type} (run1 : α → Res β) :
    ∀ l : List α, (∀ a ∈ l, ∃ v, run1 a = .ok v) → ∃ vs, map_res run1 l = .ok vs := by
  intro l
  induction l with
  | nil => intro _; exact ⟨[], rfl⟩
  | cons a as ih =>
    intro h
    obtain ⟨v, hv⟩ := h a (List.mem_cons_self a as)
    obtain ⟨vs, hvs⟩ := ih (fun x hx => h x (List.mem_cons_of_mem a hx))
    exact ⟨v :: vs, by simp [map_res, hv, hvs]⟩

/-- C9: when every statement of a `FirstStatement` evaluates to a value (in a
    sub-frame on the same parameters and captures), the whole node evaluates
    to exactly what its final expression evaluates to in the original
    frame. -/
theorem first_statement_returns_eval
    (fuel : Nat) (rt : Runtime) (stmts : List IREntity) (eval : IREntity)
    (params captured : List Value)
    (h : ∀ s ∈ stmts, ∃ v, runner_run fuel rt s params captured = .ok v) :
    runner_run (fuel + 1) rt (.firstStatement stmts eval) params captured =
      runner_run fuel rt eval params captured := by
  obtain ⟨vs, hvs⟩ := map_res_ok_of_all (fun e => runner_run fuel rt e params captured) stmts h
  simp [runner_run, hvs]

/-- C9 witness: `first 99 and 100 then 7` evaluates to what `7` evaluates
    to. -/
theorem first_statement_returns_eval_witness :
    (∀ s ∈ ([.inlined (.int 99), .inlined (.int 100)] : List IREntity),
      ∃ v, runner_run 1 wit_rt s [] [] = .ok v) ∧
    runner_run 2 wit_rt
        (.firstStatement [.inlined (.int 99), .inlined (.int 100)] (.inlined (.int 7))) [] [] =
      runner_run 1 wit_rt (.inlined (.int 7)) [] [] :=
  ⟨by
      intro s hs
      simp only [List.mem_cons, List.not_mem_nil, or_false] at hs
      rcases hs with rfl | rfl
      · exact ⟨.int 99, rfl⟩
      · exact ⟨.int 100, rfl⟩,
   first_statement_returns_eval 1 wit_rt [.inlined (.int 99), .inlined (.int 100)]
      (.inlined (.int 7)) [] []
      (by
        intro s hs
        simp only [List.mem_cons, List.not_mem_nil, or_false] at hs
        rcases hs with rfl | rfl
        · exact ⟨.int 99, rfl⟩
        · exact ⟨.int 100, rfl⟩)⟩

/-! ## C10 — empty `Entity::List` panics at runtime, parses fine -/

/-- Helper: `init_last` over a non-empty vector of inlined literals. -/
theorem init_last_map_inlined :
    ∀ (vs : List Value) (v : Value), ∃ i l, v :: vs = i ++ [l] ∧
      init_last (IREntity.inlined v) (vs.map .inlined) = (i.map .inlined, .inlined l) := by
  intro vs
  induction vs with
  | nil => intro v; exact ⟨[], v, rfl, rfl⟩
  | cons w ws ih =>
    intro v
    obtain ⟨i, l, h1, h2⟩ := ih w
    exact ⟨v :: i, l, by simp [h1], by simp [init_last, h2]⟩

/-- Helper: an inlined value evaluates to itself. -/
theorem runner_run_inlined (fuel : Nat) (rt : Runtime) (v : Value)
    (params captured : List Value) :
    runner_run (fuel + 1) rt (.inlined v) params captured = .ok v := rfl

/-- Helper: the unfolding of `Runner::list` on a non-empty element vector. -/
theorem runner_run_list_cons (fuel : Nat) (rt : Runtime) (e : IREntity)
    (es : List IREntity) (params captured : List Value) :
    runner_run (fuel + 1) rt (.list (e :: es)) params captured =
      (match map_res (fun x => runner_run fuel rt x params captured) (init_last e es).1 with
       | .ok vs =>
         (match runner_run fuel rt (init_last e es).2 params captured with
          | .ok v => .ok (.list (vs ++ [v]))
          | r => r)
       | .fault f => .fault f
       | .panicked => .panicked
       | .nofuel => .nofuel) := rfl

/-- Helper: inlined literals evaluate to themselves under `map_res`. -/
theorem map_res_inlined (fuel : Nat) (rt : Runtime) (params captured : List Value) :
    ∀ i : List Value,
      map_res (fun x => runner_run (fuel + 1) rt x params captured) (i.map .inlined) =
        .ok i := by
  intro i
  induction i with
  | nil => rfl
  | cons v vs ih => simp [map_res, runner_run_inlined, ih]

/-- C10: the parser accepts the empty list literal `[]` (producing
    `Entity::List` of an empty vector), but the evaluator's `Runner::list`
    panics on an empty element vector (the index arithmetic
    `list.len() - 1` underflows), while non-empty vectors of literals
    evaluate to the corresponding `Value::List`. -/
theorem empty_list_eval_panics
    (fuel : Nat) (rt : Runtime) (params captured : List Value) :
    run_chunk (fuel + 2) [.key .listOpen, .key .listClose] = .ok (.list [], []) ∧
    runner_run (fuel + 1) rt (.list []) params captured = .panicked ∧
    (∀ v vs, runner_run (fuel + 2) rt (.list ((v :: vs).map IREntity.inlined))
        params captured = .ok (.list (v :: vs))) := by
  refine ⟨rfl, rfl, ?_⟩
  intro v vs
  obtain ⟨i, l, h1, h2⟩ := init_last_map_inlined vs v
  have hmap := map_res_inlined fuel rt params captured i
  have hlast := runner_run_inlined fuel rt l params captured
  rw [List.map_cons, runner_run_list_cons, h2]
  simp only [hmap, hlast]
  rw [← h1]

/-! ## C8 — parenthesization preserves the parse -/

/-- The closing-parenthesis token appended in the extension lemma. -/
def rparen : Tok := .key .parenClose

/-- Inversion of a successful `Res.bind`. -/
theorem Res.bind_ok {α β : Type} {x : Res α} {f : α → Res β} {b : β}
    (h : x.bind f = .ok b) : ∃ a, x = .ok a ∧ f a = .ok b := by
  cases x <;> simp [Res.bind] at h ⊢ <;> exact h

/-- `next_can_be_parameter` treats a trailing `)` exactly like end of
    input. -/
theorem next_can_be_parameter_ext : ∀ ts : List Tok,
    next_can_be_parameter (ts ++ [rparen]) =
      ((next_can_be_parameter ts).1, (next_can_be_parameter ts).2 ++ [rparen]) := by
  intro ts
  induction ts with
  | nil => rfl
  | cons t ts ih =>
    cases t with
    | ident a => rfl
    | newline => simpa [next_can_be_parameter] using ih
    | key k => cases k <;> rfl
    | _ => rfl

/-- `lambda_should_consume_pipe` treats a trailing `)` like end of input. -/
theorem lambda_should_consume_pipe_ext : ∀ ts : List Tok,
    lambda_should_consume_pipe (ts ++ [rparen]) =
      ((lambda_should_consume_pipe ts).1, (lambda_should_consume_pipe ts).2 ++ [rparen]) := by
  intro ts
  induction ts with
  | nil => rfl
  | cons t ts ih =>
    cases t with
    | newline => simpa [lambda_should_consume_pipe] using ih
    | key k => cases k <;> rfl
    | _ => rfl

/-- A successful lambda-parameter scan is unaffected by a trailing `)`. -/
theorem collect_lambda_params_ext : ∀ (ts : List Tok) (ps : List AIdent) (r : List Tok),
    collect_lambda_params ts = .ok (ps, r) →
    collect_lambda_params (ts ++ [rparen]) = .ok (ps, r ++ [rparen]) := by
  intro ts
  induction ts with
  | nil => intro ps r h; simp [collect_lambda_params] at h
  | cons t ts ih =>
    intro ps r h
    cases t with
    | ident a =>
      obtain ⟨⟨ps', r'⟩, hx, hf⟩ := Res.bind_ok h
      simp only [Res.ok.injEq, Prod.mk.injEq] at hf
      obtain ⟨rfl, rfl⟩ := hf
      simp only [List.cons_append, collect_lambda_params, List.append_eq]
      rw [ih _ _ hx]
      simp [Res.bind]
    | key k =>
      cases k <;> simp [collect_lambda_params] at h <;>
        simp [collect_lambda_params, h]
    | _ => simp [collect_lambda_params] at h

/-- A successful `then`-scan is unaffected by a trailing `)`. -/
theorem expect_then_ext : ∀ (ts r : List Tok),
    expect_then ts = .ok r → expect_then (ts ++ [rparen]) = .ok (r ++ [rparen]) := by
  intro ts
  induction ts with
  | nil => intro r h; simp [expect_then] at h
  | cons t ts ih =>
    intro r h
    cases t with
    | newline => simpa [expect_then] using ih r (by simpa [expect_then] using h)
    | key k =>
      cases k <;> simp [expect_then] at h <;> simp [expect_then, h]
    | _ => simp [expect_then] at h

/-- A successful `elif`/`else`-scan is unaffected by a trailing `)`. -/
theorem if_branch_sep_ext : ∀ (ts : List Tok) (b : Bool) (r : List Tok),
    if_branch_sep ts = .ok (b, r) →
    if_branch_sep (ts ++ [rparen]) = .ok (b, r ++ [rparen]) := by
  intro ts
  induction ts with
  | nil => intro b r h; simp [if_branch_sep] at h
  | cons t ts ih =>
    intro b r h
    cases t with
    | newline => simpa [if_branch_sep] using ih b r (by simpa [if_branch_sep] using h)
    | key k =>
      cases k <;> simp [if_branch_sep] at h <;>
        simp [if_branch_sep, h.1, h.2]
    | _ => simp [if_branch_sep] at h

/-- A successful `and`/`then`-scan is unaffected by a trailing `)`. -/
theorem first_sep_ext : ∀ (ts : List Tok) (b : Bool) (r : List Tok),
    first_sep ts = .ok (b, r) →
    first_sep (ts ++ [rparen]) = .ok (b, r ++ [rparen]) := by
  intro ts
  induction ts with
  | nil => intro b r h; simp [first_sep] at h
  | cons t ts ih =>
    intro b r h
    cases t with
    | newline => simpa [first_sep] using ih b r (by simpa [first_sep] using h)
    | key k =>
      cases k <;> simp [first_sep] at h <;>
        simp [first_sep, h.1, h.2]
    | _ => simp [first_sep] at h

/-- The thirteen extension statements, one per builder function: appending a
    closing parenthesis after the input of a successful parse leaves the
    result unchanged and appends the token to the leftover stream. -/
def ExtAll (n : Nat) : Prop :=
  (∀ ts v r, run_chunk n ts = .ok (v, r) →
    run_chunk n (ts ++ [rparen]) = .ok (v, r ++ [rparen])) ∧
  (∀ c ts v r, run_maybe_parameterized n c ts = .ok (v, r) →
    run_maybe_parameterized n c (ts ++ [rparen]) = .ok (v, r ++ [rparen])) ∧
  (∀ ts ps r, run_parameterized n ts = .ok (ps, r) →
    run_parameterized n (ts ++ [rparen]) = .ok (ps, r ++ [rparen])) ∧
  (∀ ts p r, run_closure_conversion n ts = .ok (p, r) →
    run_closure_conversion n (ts ++ [rparen]) = .ok (p, r ++ [rparen])) ∧
  (∀ left ts v r, run_maybe_operator n left ts = .ok (v, r) →
    run_maybe_operator n left (ts ++ [rparen]) = .ok (v, r ++ [rparen])) ∧
  (∀ left op ts v r, run_operator n left op ts = .ok (v, r) →
    run_operator n left op (ts ++ [rparen]) = .ok (v, r ++ [rparen])) ∧
  (∀ ts v r, run_lambda n ts = .ok (v, r) →
    run_lambda n (ts ++ [rparen]) = .ok (v, r ++ [rparen])) ∧
  (∀ acc ts v r, run_if n acc ts = .ok (v, r) →
    run_if n acc (ts ++ [rparen]) = .ok (v, r ++ [rparen])) ∧
  (∀ acc ts v r, run_first n acc ts = .ok (v, r) →
    run_first n acc (ts ++ [rparen]) = .ok (v, r ++ [rparen])) ∧
  (∀ ts v r, run_list n ts = .ok (v, r) →
    run_list n (ts ++ [rparen]) = .ok (v, r ++ [rparen])) ∧
  (∀ buf ts v r, run_list_items n buf ts = .ok (v, r) →
    run_list_items n buf (ts ++ [rparen]) = .ok (v, r ++ [rparen])) ∧
  (∀ ts v r, run_record n ts = .ok (v, r) →
    run_record n (ts ++ [rparen]) = .ok (v, r ++ [rparen])) ∧
  (∀ ts fs r, run_record_fields n ts = .ok (fs, r) →
    run_record_fields n (ts ++ [rparen]) = .ok (fs, r ++ [rparen]))

/-- The extension lemma, by simultaneous induction on fuel. -/
theorem ext_all : ∀ n, ExtAll n := by
  intro n
  induction n with
  | zero =>
    exact ⟨fun ts v r h => by simp [run_chunk] at h,
      fun c ts v r h => by simp [run_maybe_parameterized] at h,
      fun ts ps r h => by simp [run_parameterized] at h,
      fun ts p r h => by simp [run_closure_conversion] at h,
      fun left ts v r h => by simp [run_maybe_operator] at h,
      fun left op ts v r h => by simp [run_operator] at h,
      fun ts v r h => by simp [run_lambda] at h,
      fun acc ts v r h => by simp [run_if] at h,
      fun acc ts v r h => by simp [run_first] at h,
      fun ts v r h => by simp [run_list] at h,
      fun buf ts v r h => by simp [run_list_items] at h,
      fun ts v r h => by simp [run_record] at h,
      fun ts fs r h => by simp [run_record_fields] at h⟩
  | succ m ih =>
    obtain ⟨ihc, ihmp, ihp, ihcc, ihmo, ihop, ihl, ihif, ihfst, ihlst, ihli, ihrec, ihrf⟩ := ih
    refine ⟨?_, ?_, ?_, ?_, ?_, ?_, ?_, ?_, ?_, ?_, ?_, ?_, ?_⟩
    · -- run_chunk
      intro ts v r h
      simp only [run_chunk] at h ⊢
      split at h
      next => simp at h
      next t ts' =>
        simp only [List.cons_append]
        split at h
        next => simp at h
        next => simp at h
        next =>
          obtain ⟨⟨v1, r1⟩, hx, hf⟩ := Res.bind_ok h
          simp only [] at hf
          rw [ihc _ _ _ hx]
          simp only [Res.bind]
          split at hf
          next r2 =>
            simp only [List.cons_append]
            cases v1 <;>
              first
                | exact ihmp _ _ _ _ hf
                | exact ihmo _ _ _ _ hf
          next => simp at hf
        next =>
          simp only [Res.ok.injEq, Prod.mk.injEq] at h
          obtain ⟨rfl, rfl⟩ := h
          simp [List.cons_append]
        next v0 =>
          exact ihmo _ _ _ _ h
        next =>
          obtain ⟨⟨v1, r1⟩, hx, hf⟩ := Res.bind_ok h
          simp only [] at hf
          rw [ihlst _ _ _ hx]
          simp only [Res.bind]
          exact ihmo _ _ _ _ hf
        next =>
          exact ihrec _ _ _ h
        next =>
          obtain ⟨⟨v1, r1⟩, hx, hf⟩ := Res.bind_ok h
          simp only [] at hf
          rw [ihif _ _ _ _ hx]
          simp only [Res.bind]
          exact ihmo _ _ _ _ hf
        next =>
          obtain ⟨⟨v1, r1⟩, hx, hf⟩ := Res.bind_ok h
          simp only [] at hf
          rw [ihfst _ _ _ _ hx]
          simp only [Res.bind]
          exact ihmo _ _ _ _ hf
        next a =>
          obtain ⟨⟨v1, r1⟩, hx, hf⟩ := Res.bind_ok h
          simp only [] at hf
          rw [ihmp _ _ _ _ hx]
          simp only [Res.bind]
          exact ihmo _ _ _ _ hf
        next =>
          obtain ⟨⟨v1, r1⟩, hx, hf⟩ := Res.bind_ok h
          simp only [] at hf
          rw [ihl _ _ _ hx]
          simp only [Res.bind]
          rw [lambda_should_consume_pipe_ext r1]
          split at hf
          next r2 heq =>
            rw [heq]
            simp only []
            split at hf
            next t2 r3 =>
              simp only [List.cons_append]
              obtain ⟨⟨piped, r4⟩, hx2, hf2⟩ := Res.bind_ok hf
              simp only [] at hf2
              rw [ihc _ _ _ hx2]
              simp only [Res.bind]
              split at hf2 <;>
                first
                  | (simp only [Res.ok.injEq, Prod.mk.injEq] at hf2
                     obtain ⟨rfl, rfl⟩ := hf2
                     simp [List.cons_append])
                  | simp at hf2
            next => simp at hf
          next r2 heq =>
            rw [heq]
            simp only []
            simp only [Res.ok.injEq, Prod.mk.injEq] at hf
            obtain ⟨rfl, rfl⟩ := hf
            rfl
        next =>
          exact ihc _ _ _ h
        next =>
          simp at h
    · -- run_maybe_parameterized
      intro c ts v r h
      simp only [run_maybe_parameterized] at h ⊢
      rw [next_can_be_parameter_ext ts]
      split at h
      next ts2 heq =>
        rw [heq]
        obtain ⟨⟨ps, r1⟩, hx, hf⟩ := Res.bind_ok h
        have hx' := ihp _ _ _ hx
        simp only [hx', Res.bind]
        exact ihmo _ _ _ _ hf
      next ts2 heq =>
        rw [heq]
        simp only [Res.ok.injEq, Prod.mk.injEq] at h
        obtain ⟨rfl, rfl⟩ := h
        simp
    · -- run_parameterized
      intro ts ps r h
      simp only [run_parameterized] at h ⊢
      split at h
      next =>
        simp only [Res.ok.injEq, Prod.mk.injEq] at h
        obtain ⟨rfl, rfl⟩ := h
        simp [rparen]
      next t ts' =>
        simp only [List.cons_append]
        split at h
        next v0 =>
          obtain ⟨⟨params, rest⟩, hx, hf⟩ := Res.bind_ok h
          simp only [] at hf
          simp only [Res.ok.injEq, Prod.mk.injEq] at hf
          obtain ⟨rfl, rfl⟩ := hf
          rw [ihp _ _ _ hx]
          rfl
        next a =>
          split at h
          next hop =>
            simp only [Res.ok.injEq, Prod.mk.injEq] at h
            obtain ⟨rfl, rfl⟩ := h
            simp [hop]
          next hop =>
            simp only [hop, if_false, Bool.false_eq_true]
            obtain ⟨⟨params, rest⟩, hx, hf⟩ := Res.bind_ok h
            simp only [] at hf
            simp only [Res.ok.injEq, Prod.mk.injEq] at hf
            obtain ⟨rfl, rfl⟩ := hf
            rw [ihp _ _ _ hx]
            simp [Res.bind, hop]
        next =>
          obtain ⟨⟨v1, r1⟩, hx, hf⟩ := Res.bind_ok h
          simp only [] at hf
          rw [ihc _ _ _ hx]
          simp only [Res.bind]
          split at hf
          next r2 =>
            simp only [List.cons_append]
            obtain ⟨⟨params, rest⟩, hx2, hf2⟩ := Res.bind_ok hf
            simp only [] at hf2
            simp only [Res.ok.injEq, Prod.mk.injEq] at hf2
            obtain ⟨rfl, rfl⟩ := hf2
            rw [ihp _ _ _ hx2]
          next => simp at hf
          next => simp at hf
        next =>
          obtain ⟨⟨v1, rest⟩, hx, hf⟩ := Res.bind_ok h
          simp only [] at hf
          simp only [Res.ok.injEq, Prod.mk.injEq] at hf
          obtain ⟨rfl, rfl⟩ := hf
          rw [ihrec _ _ _ hx]
          rfl
        next =>
          obtain ⟨⟨v1, rest⟩, hx, hf⟩ := Res.bind_ok h
          simp only [] at hf
          simp only [Res.ok.injEq, Prod.mk.injEq] at hf
          obtain ⟨rfl, rfl⟩ := hf
          rw [ihc _ _ _ hx]
          rfl
        next =>
          obtain ⟨⟨v1, r1⟩, hx, hf⟩ := Res.bind_ok h
          simp only [] at hf
          obtain ⟨⟨params, rest⟩, hx2, hf2⟩ := Res.bind_ok hf
          simp only [] at hf2
          simp only [Res.ok.injEq, Prod.mk.injEq] at hf2
          obtain ⟨rfl, rfl⟩ := hf2
          rw [ihlst _ _ _ hx]
          simp only [Res.bind]
          rw [ihp _ _ _ hx2]
        next =>
          obtain ⟨⟨p1, r1⟩, hx, hf⟩ := Res.bind_ok h
          simp only [] at hf
          obtain ⟨⟨params, rest⟩, hx2, hf2⟩ := Res.bind_ok hf
          simp only [] at hf2
          simp only [Res.ok.injEq, Prod.mk.injEq] at hf2
          obtain ⟨rfl, rfl⟩ := hf2
          rw [ihcc _ _ _ hx]
          simp only [Res.bind]
          rw [ihp _ _ _ hx2]
        next =>
          simp only [Res.ok.injEq, Prod.mk.injEq] at h
          obtain ⟨rfl, rfl⟩ := h
          rfl
        next =>
          simp only [Res.ok.injEq, Prod.mk.injEq] at h
          obtain ⟨rfl, rfl⟩ := h
          rfl
        next =>
          simp only [Res.ok.injEq, Prod.mk.injEq] at h
          obtain ⟨rfl, rfl⟩ := h
          rfl
        next =>
          simp only [Res.ok.injEq, Prod.mk.injEq] at h
          obtain ⟨rfl, rfl⟩ := h
          rfl
        next =>
          simp only [Res.ok.injEq, Prod.mk.injEq] at h
          obtain ⟨rfl, rfl⟩ := h
          rfl
        next =>
          simp only [Res.ok.injEq, Prod.mk.injEq] at h
          obtain ⟨rfl, rfl⟩ := h
          rfl
        next =>
          simp only [Res.ok.injEq, Prod.mk.injEq] at h
          obtain ⟨rfl, rfl⟩ := h
          rfl
        next =>
          simp only [Res.ok.injEq, Prod.mk.injEq] at h
          obtain ⟨rfl, rfl⟩ := h
          rfl
        next =>
          exact ihp _ _ _ h
        next =>
          simp at h
    · -- run_closure_conversion
      intro ts p r h
      simp only [run_closure_conversion] at h ⊢
      split at h
      next => simp at h
      next ts' =>
        simp only [List.cons_append]
        obtain ⟨⟨entity, r1⟩, hx, hf⟩ := Res.bind_ok h
        simp only [] at hf
        rw [ihc _ _ _ hx]
        simp only [Res.bind]
        split at hf
        next r2 =>
          simp only [List.cons_append]
          split at hf <;>
            first
              | (simp only [Res.ok.injEq, Prod.mk.injEq] at hf
                 obtain ⟨rfl, rfl⟩ := hf
                 simp [List.cons_append])
              | simp at hf
        next => simp at hf
        next => simp at hf
      next a ts' =>
        simp only [Res.ok.injEq, Prod.mk.injEq] at h
        obtain ⟨rfl, rfl⟩ := h
        simp [List.cons_append]
      next v0 ts' =>
        simp only [Res.ok.injEq, Prod.mk.injEq] at h
        obtain ⟨rfl, rfl⟩ := h
        simp [List.cons_append]
      next =>
        simp at h
    · -- run_maybe_operator
      intro left ts v r h
      simp only [run_maybe_operator] at h ⊢
      split at h
      next =>
        simp only [Res.ok.injEq, Prod.mk.injEq] at h
        obtain ⟨rfl, rfl⟩ := h
        simp [rparen]
      next a ts' =>
        simp only [List.cons_append]
        split at h
        next hop =>
          simp only [hop, if_true]
          exact ihop _ _ _ _ _ h
        next => simp at h
      next t ts' hne =>
        simp only [Res.ok.injEq, Prod.mk.injEq] at h
        obtain ⟨rfl, rfl⟩ := h
        cases t
        case ident a => exact absurd rfl (hne a)
        all_goals rfl
    · -- run_operator
      intro left op ts v r h
      simp only [run_operator] at h ⊢
      obtain ⟨⟨right, r1⟩, hx, hf⟩ := Res.bind_ok h
      have hx' := ihc _ _ _ hx
      simp only [hx', Res.bind]
      split at hf
      next hop =>
        simp only [hop, if_true]
        exact ihmo _ _ _ _ hf
      next => simp at hf
    · -- run_lambda
      intro ts v r h
      simp only [run_lambda] at h ⊢
      obtain ⟨⟨ps, r1⟩, hx, hf⟩ := Res.bind_ok h
      obtain ⟨⟨body, r2⟩, hx2, hf2⟩ := Res.bind_ok hf
      simp only [Res.ok.injEq, Prod.mk.injEq] at hf2
      obtain ⟨rfl, rfl⟩ := hf2
      rw [collect_lambda_params_ext _ _ _ hx]
      simp only [Res.bind]
      rw [ihc _ _ _ hx2]
    · -- run_if
      intro acc ts v r h
      simp only [run_if] at h ⊢
      obtain ⟨⟨cond, r1⟩, hx, hf⟩ := Res.bind_ok h
      simp only [] at hf
      rw [ihc _ _ _ hx]
      simp only [Res.bind]
      obtain ⟨r2, hx2, hf2⟩ := Res.bind_ok hf
      rw [expect_then_ext _ _ hx2]
      simp only [Res.bind]
      obtain ⟨⟨ev, r3⟩, hx3, hf3⟩ := Res.bind_ok hf2
      simp only [] at hf3
      rw [ihc _ _ _ hx3]
      simp only [Res.bind]
      obtain ⟨⟨sep, r4⟩, hx4, hf4⟩ := Res.bind_ok hf3
      simp only [] at hf4
      rw [if_branch_sep_ext _ _ _ hx4]
      simp only [Res.bind]
      cases sep with
      | true =>
        simp only [if_true] at hf4 ⊢
        exact ihif _ _ _ _ hf4
      | false =>
        simp only [Bool.false_eq_true, if_false] at hf4 ⊢
        obtain ⟨⟨last, r5⟩, hx5, hf5⟩ := Res.bind_ok hf4
        simp only [] at hf5
        simp only [Res.ok.injEq, Prod.mk.injEq] at hf5
        obtain ⟨rfl, rfl⟩ := hf5
        rw [ihc _ _ _ hx5]
    · -- run_first
      intro acc ts v r h
      simp only [run_first] at h ⊢
      obtain ⟨⟨v1, r1⟩, hx, hf⟩ := Res.bind_ok h
      obtain ⟨⟨sep, r2⟩, hx2, hf2⟩ := Res.bind_ok hf
      rw [ihc _ _ _ hx]
      simp only [Res.bind]
      rw [first_sep_ext _ _ _ hx2]
      simp only [Res.bind]
      cases sep with
      | true =>
        simp only [if_true] at hf2 ⊢
        exact ihfst _ _ _ _ hf2
      | false =>
        simp only [Bool.false_eq_true, if_false] at hf2 ⊢
        obtain ⟨⟨w, r3⟩, hx3, hf3⟩ := Res.bind_ok hf2
        simp only [Res.ok.injEq, Prod.mk.injEq] at hf3
        obtain ⟨rfl, rfl⟩ := hf3
        rw [ihc _ _ _ hx3]
    · -- run_list
      intro ts v r h
      simp only [run_list] at h ⊢
      split at h
      next ts' =>
        simp only [Res.ok.injEq, Prod.mk.injEq] at h
        obtain ⟨rfl, rfl⟩ := h
        simp [List.cons_append]
      next hne =>
        have hgoal := ihli _ _ _ _ h
        split
        next heq =>
          exfalso
          cases ts with
          | nil => simp [rparen] at heq
          | cons t ts0 =>
            simp only [List.cons_append, List.cons.injEq] at heq
            exact hne ts0 (by rw [heq.1])
        next =>
          exact hgoal
    · -- run_list_items
      intro buf ts v r h
      simp only [run_list_items] at h ⊢
      obtain ⟨⟨v1, r1⟩, hx, hf⟩ := Res.bind_ok h
      simp only [] at hf
      rw [ihc _ _ _ hx]
      simp only [Res.bind]
      split at hf
      next r2 =>
        simp only [Res.ok.injEq, Prod.mk.injEq] at hf
        obtain ⟨rfl, rfl⟩ := hf
        simp [List.cons_append]
      next r2 =>
        simp only [List.cons_append]
        exact ihli _ _ _ _ hf
      next => simp at hf
      next => simp at hf
    · -- run_record
      intro ts v r h
      simp only [run_record] at h ⊢
      split at h
      next => simp at h
      next name ts2 =>
        simp only [List.cons_append]
        split at h
        next ts3 =>
          obtain ⟨⟨fields, rest⟩, hx, hf⟩ := Res.bind_ok h
          simp only [Res.ok.injEq, Prod.mk.injEq] at hf
          obtain ⟨rfl, rfl⟩ := hf
          simp only [List.cons_append]
          rw [ihrf _ _ _ hx]
          simp [Res.bind]
        next => simp at h
        next => simp at h
      next t ts2 hne =>
        simp at h
    · -- run_record_fields
      intro ts fs r h
      simp only [run_record_fields] at h ⊢
      split at h
      next => simp at h
      next nm ts2 =>
        simp only [List.cons_append]
        obtain ⟨⟨value, r1⟩, hx, hf⟩ := Res.bind_ok h
        simp only [] at hf
        rw [ihc _ _ _ hx]
        simp only [Res.bind]
        split at hf
        next => simp at hf
        next r2 =>
          simp only [List.cons_append]
          obtain ⟨⟨buf, rest⟩, hx2, hf2⟩ := Res.bind_ok hf
          simp only [Res.ok.injEq, Prod.mk.injEq] at hf2
          obtain ⟨rfl, rfl⟩ := hf2
          rw [ihrf _ _ _ hx2]
        next r2 =>
          simp only [Res.ok.injEq, Prod.mk.injEq] at hf
          obtain ⟨rfl, rfl⟩ := hf
          simp [List.cons_append]
        next => simp at hf
      next t ts2 hne =>
        simp at h

/-- C8: a token stream that `run_chunk` consumes completely parses to the
    same `Entity` when wrapped in parentheses — including the case where the
    expression is a lambda literal (which takes the
    `run_maybe_parameterized` path after the closing parenthesis). -/
theorem paren_preserves_parse
    (n : Nat) (ts : List Tok) (v : Entity)
    (h : run_chunk n ts = .ok (v, [])) :
    run_chunk (n + 1) (.key .parenOpen :: (ts ++ [.key .parenClose])) = .ok (v, []) := by
  cases n with
  | zero => simp [run_chunk] at h
  | succ m =>
    have hext := (ext_all (m + 1)).1 ts v [] h
    simp only [rparen] at hext
    have step : run_chunk (m + 1 + 1) (.key .parenOpen :: (ts ++ [.key .parenClose])) =
        (run_chunk (m + 1) (ts ++ [.key .parenClose])).bind fun vr =>
          match vr.2 with
          | .key .parenClose :: r2 =>
            (match vr.1 with
             | .lambda ps body => run_maybe_parameterized (m + 1) (.lambda ps body) r2
             | _ => run_maybe_operator (m + 1) vr.1 r2)
          | _ => .fault (.unmatched .parenOpen) := rfl
    rw [step, hext]
    simp only [List.nil_append, Res.bind]
    cases v <;>
      simp [run_maybe_parameterized, run_maybe_operator, next_can_be_parameter,
        callable_entity]

/-- The identifier `x` for witnesses. -/
def wit_x : AIdent := ⟨⟨[], "x", .normal⟩, none⟩

/-- C8 witness: the lambda literal `\x -> 1` parses to the same entity bare
    and parenthesized. -/
theorem paren_preserves_parse_witness :
    run_chunk 5 [.key .lambdaKey, .ident wit_x, .key .arrow, .inlined (.int 1)] =
      .ok (.lambda [wit_x] (.inlined (.int 1)), []) ∧
    run_chunk 6 (.key .parenOpen ::
        ([.key .lambdaKey, .ident wit_x, .key .arrow, .inlined (.int 1)] ++
          [.key .parenClose])) =
      .ok (.lambda [wit_x] (.inlined (.int 1)), []) :=
  ⟨rfl, paren_preserves_parse 5
    [.key .lambdaKey, .ident wit_x, .key .arrow, .inlined (.int 1)]
    (.lambda [wit_x] (.inlined (.int 1))) rfl⟩
